import Mathlib

/-!
Verification development for the rclip incremental image-index core
(`rclip/main.py`): the mark-and-sweep synchronization protocol
(`ensure_index`), the batch flush (`_index_files`), and the query ranker
(`search`).

Modelling conventions:
* file contents, decoded images, content digests and feature vectors are
  abstracted as natural numbers; `vector.tobytes()` is the identity;
* filesystem metadata (`st_mtime`, `st_size`) is a pair of integers —
  the code only ever compares these fields for equality;
* the static filesystem visible to a run is a function
  `path → Option (meta × content)`; the scanner's output is the list of
  walked paths (deterministic for a static tree, per the spec);
* the persistent store is a list of records keyed by `filepath`; the
  `db` module is not part of the provided source, so each store
  operation is modelled from the spec (§4.4 Index Store, §3 lifecycle)
  and carries a doc comment saying so;
* progress output, timing statistics, commits (durability checkpoints)
  and the background counting thread have no effect on the store state
  and are dropped; the embedding models runs that complete.
-/

namespace Rclip

/-- Filesystem metadata snapshot: the two fields the code tracks
(`modified_at` from `st_mtime`, `size` from `st_size`). -/
structure ImageMeta where
  modified_at : Int
  size : Int
deriving DecidableEq, Repr

/-- One stored record, per spec §3 (ImageRecord): path, metadata
snapshot, content hash, vector, and the `indexing` flag. -/
structure DBImage where
  filepath : String
  modified_at : Int
  size : Int
  hash : Nat
  vector : Nat
  indexing : Bool
deriving DecidableEq, Repr

/-- The Index Store: records keyed by `filepath`. -/
abbrev Store := List DBImage

/-- Modelled from the spec: Index Store lookup-by-path
(`db.get_image`); the db module is not under the provided source. -/
def get_image (st : Store) (p : String) : Option DBImage :=
  st.find? (fun r => r.filepath == p)

/-- Modelled from the spec: Index Store lookup-by-hash
(`db.get_image_by_hash`); returns a store-resident record bearing the
hash, the spec (§3) assuming at most one such record at a time. -/
def get_image_by_hash (st : Store) (h : Nat) : Option DBImage :=
  st.find? (fun r => r.hash == h)

/-- Modelled from the spec: Index Store upsert (`db.upsert_image`) —
insert or full update keyed by `filepath`; the flag of a freshly
written record is implicitly absent/false (spec §4.5a). -/
def upsert_image (st : Store) (n : DBImage) : Store :=
  if st.any (fun r => r.filepath == n.filepath) then
    st.map (fun r => if r.filepath == n.filepath then n else r)
  else
    st ++ [n]

/-- Modelled from the spec: path-only update for a rename
(`db.update_image_filepath`); per the spec §3 lifecycle a record is
"unflagged as soon as the sweep confirms it unchanged or updates it",
so the rewritten record's flag is cleared. -/
def update_image_filepath (st : Store) (old new : String) : Store :=
  st.map (fun r =>
    if r.filepath == old then { r with filepath := new, indexing := false } else r)

/-- Modelled from the spec: bulk "clear indexing_flag for all records"
(store-wide) — `db.remove_indexing_flag_from_all_images`. -/
def remove_indexing_flag_from_all_images (st : Store) : Store :=
  st.map (fun r => { r with indexing := false })

/-- Modelled from the spec: bulk "set indexing_flag = true for all
records under directory prefix D" — `db.flag_images_in_a_dir_as_indexing`;
the directory prefix is abstracted as a predicate on paths. -/
def flag_images_in_a_dir_as_indexing (st : Store) (underRoot : String → Bool) : Store :=
  st.map (fun r => if underRoot r.filepath then { r with indexing := true } else r)

/-- Modelled from the spec: "clear indexing_flag for one path" —
`db.remove_indexing_flag`. -/
def remove_indexing_flag (st : Store) (p : String) : Store :=
  st.map (fun r => if r.filepath == p then { r with indexing := false } else r)

/-- Modelled from the spec: sweep/delete — "delete all records under
prefix D still flagged" (`db.flag_indexing_images_in_a_dir_as_deleted`). -/
def flag_indexing_images_in_a_dir_as_deleted (st : Store) (underRoot : String → Bool) : Store :=
  st.filter (fun r => !(underRoot r.filepath && r.indexing))

/-- The collaborators and configuration a run closes over: the static
filesystem (path to stat metadata and content; `none` covers both a
missing file and a stat failure), image decoding (`Image.open`,
`none` = `UnidentifiedImageError`), content hashing
(`_compute_image_hash`), the batched extraction collaborator
(`compute_image_features`, failing as a unit), the root-directory
predicate, and the indexing batch size. -/
structure Env where
  fs : String → Option (ImageMeta × Nat)
  decode : Nat → Option Nat
  hashFn : Nat → Nat
  extractFn : List Nat → Option (List Nat)
  underRoot : String → Bool
  batchSize : Nat

/-- Result of the decode loop at the head of `_index_files`
(main.py lines 72-84): `images`, `filtered_paths` and `hashes` grow in
lockstep; a file that fails to open or decode is skipped.  Note the
source does not filter the `metas` parameter alongside. -/
structure DecAcc where
  images : List Nat
  filteredPaths : List String
  hashes : List Nat
deriving DecidableEq, Repr

/-- One iteration of the decode/filter loop of `_index_files`
(main.py lines 75-84): a file that fails to open or decode is
skipped, otherwise its image, path and content hash are appended in
lockstep. -/
def decodeStep (env : Env) (acc : DecAcc) (p : String) : DecAcc :=
  match env.fs p with
  | none => acc
  | some (_, c) =>
    match env.decode c with
    | none => acc
    | some img =>
      { images := acc.images ++ [img],
        filteredPaths := acc.filteredPaths ++ [p],
        hashes := acc.hashes ++ [env.hashFn c] }

/-- The decode/filter loop of `_index_files` (main.py lines 72-84). -/
def decodeBatch (env : Env) (batch : List String) : DecAcc :=
  batch.foldl (decodeStep env) ⟨[], [], []⟩

/-- The reconciliation loop of `_index_files` (main.py lines 91-103):
for each zipped (path, meta, vector, hash), a hash hit at a different
path is a rename (path-only update), otherwise a full upsert. -/
def applyIndex (st : Store) (quads : List (String × ImageMeta × Nat × Nat)) : Store :=
  quads.foldl
    (fun st q =>
      let path := q.1
      let meta := q.2.1
      let vector := q.2.2.1
      let hash := q.2.2.2
      match get_image_by_hash st hash with
      | some existing_image =>
        if existing_image.filepath != path then
          update_image_filepath st existing_image.filepath path
        else
          upsert_image st ⟨path, meta.modified_at, meta.size, hash, vector, false⟩
      | none =>
        upsert_image st ⟨path, meta.modified_at, meta.size, hash, vector, false⟩)
    st

/-- `_index_files` (main.py lines 71-103).  Returns the store and the
log of extraction-collaborator invocations (one entry per
`compute_image_features` call, recording the paths whose images were
passed).  The `zip` of line 91 pairs `filtered_paths` with the
*unfiltered* `metas`, exactly as the source does. -/
def index_files (env : Env) (batch : List String) (metas : List ImageMeta)
    (st : Store) (log : List (List String)) : Store × List (List String) :=
  let d := decodeBatch env batch
  let log := log ++ [d.filteredPaths]
  match env.extractFn d.images with
  | none => (st, log)
  | some features =>
    let quads := d.filteredPaths.zip (metas.zip (features.zip d.hashes))
    (applyIndex st (quads.map (fun q => (q.1, q.2.1, q.2.2.1, q.2.2.2))), log)

/-- `is_image_meta_equal` (main.py lines 37-41): the tracked metadata
fields (`modified_at`, `size`) are compared for equality. -/
def is_image_meta_equal (image : DBImage) (meta : ImageMeta) : Bool :=
  meta.modified_at == image.modified_at && meta.size == image.size

/-- The mutable state of the reconciliation loop inside
`ensure_index`: store, current batch with its parallel metas, and the
extraction-call log. -/
structure RunState where
  st : Store
  batch : List String
  metas : List ImageMeta
  log : List (List String)

/-- Batch-size flush check of main.py lines 153-156: when the batch
has reached the configured size, flush it and clear it. -/
def flushIfFull (env : Env) (s : RunState) : RunState :=
  if env.batchSize ≤ s.batch.length then
    let r := index_files env s.batch s.metas s.st s.log
    ⟨r.1, [], [], r.2⟩
  else s

/-- One iteration of the streaming-reconciliation loop
(main.py lines 130-156): look up the record by path, stat the entry
(a stat failure skips the file), clear the flag and continue when the
metadata is unchanged, otherwise accumulate into the batch and flush
when full.  Commits and progress output have no store effect. -/
def processEntry (env : Env) (s : RunState) (p : String) : RunState :=
  match env.fs p with
  | none => s
  | some (meta, _) =>
    match get_image s.st p with
    | some image =>
      if is_image_meta_equal image meta then
        { s with st := remove_indexing_flag s.st p }
      else
        flushIfFull env { s with batch := s.batch ++ [p], metas := s.metas ++ [meta] }
    | none =>
      flushIfFull env { s with batch := s.batch ++ [p], metas := s.metas ++ [meta] }

/-- `ensure_index` (main.py lines 105-167): global unflag, local flag
under root, streaming reconciliation over the walked entries, trailing
flush of a nonempty partial batch, then sweep/delete of records under
root still flagged.  Returns the final store and the
extraction-invocation log. -/
def ensure_index (env : Env) (walked : List String) (st : Store) :
    Store × List (List String) :=
  let st1 := remove_indexing_flag_from_all_images st
  let st2 := flag_images_in_a_dir_as_indexing st1 env.underRoot
  let s := walked.foldl (processEntry env) ⟨st2, [], [], []⟩
  let r :=
    if s.batch.length != 0 then index_files env s.batch s.metas s.st s.log
    else (s.st, s.log)
  (flag_indexing_images_in_a_dir_as_deleted r.1 env.underRoot, r.2)

/-- Store effect of one loop iteration when every extraction call
fails: only the confirm-unchanged branch can touch the store
(batching mutates nothing until a flush succeeds). -/
def confirmOnlyStep (env : Env) (st : Store) (p : String) : Store :=
  match env.fs p with
  | none => st
  | some (meta, _) =>
    match get_image st p with
    | some image =>
      if is_image_meta_equal image meta then remove_indexing_flag st p else st
    | none => st

/-- Collaborators the query side closes over: the ranking call of the
extraction collaborator (`compute_similarities_to_text`), the
file-reference test (`helpers.is_file_path`, not under the provided
source, modelled from the spec as an abstract predicate),
`os.path.abspath`, the exclusion-regex match, and the
directory-prefix predicate of the vector listing. -/
structure SearchEnv where
  rankFn : List Nat → List String → List String → List (Int × Nat)
  is_file_path : String → Bool
  abspath : String → String
  excludeDirMatch : String → Bool
  underDir : String → Bool

/-- Modelled from the spec: "Listing by directory prefix returns all
records whose path is lexically under that prefix, each with its
stored vector" (§4.4) — a query, so the store passes through
unchanged (`db.get_image_vectors_by_dir_path`). -/
def get_image_vectors_by_dir_path (st : Store) (underDir : String → Bool) :
    Store × List DBImage :=
  (st, st.filter (fun r => underDir r.filepath))

/-- `_get_features` (main.py lines 193-201): the paths and vectors of
every record under the directory (the empty-input special case of the
source only fixes an array shape and is the same value here). -/
def get_features (senv : SearchEnv) (st : Store) :
    Store × (List String × List Nat) :=
  let r := get_image_vectors_by_dir_path st senv.underDir
  (r.1, (r.2.map (fun x => x.filepath), r.2.map (fun x => x.vector)))

/-- `search` (main.py lines 169-191): load vectors under the
directory, rank against `[query] + positive_queries` and
`negative_queries`, drop candidates matching the exclusion regex or
whose path is the absolute path of a file-reference query, and take
the first `top_k` survivors.  The store is threaded through the one
store operation the code performs. -/
def search (senv : SearchEnv) (st : Store) (query : String) (top_k : Nat)
    (positive_queries negative_queries : List String) :
    Store × List (String × Int) :=
  let fv := get_features senv st
  let filepaths := fv.2.1
  let positive := query :: positive_queries
  let sorted_similarities := senv.rankFn fv.2.2 positive negative_queries
  let exclude_files :=
    ((positive ++ negative_queries).filter senv.is_file_path).map senv.abspath
  let filtered := sorted_similarities.filter
    (fun t =>
      !senv.excludeDirMatch (filepaths.getD t.2 "") &&
      !exclude_files.contains (filepaths.getD t.2 ""))
  (fv.1, (filtered.take top_k).map (fun t => (filepaths.getD t.2 "", t.1)))

/-- `RClip.EXCLUDE_DIRS_DEFAULT` (main.py line 45). -/
def EXCLUDE_DIRS_DEFAULT : List String := ["@eaDir", "node_modules", ".git"]

/-- The exclusion list actually used by `RClip.__init__`
(main.py line 64): Python's `exclude_dirs or EXCLUDE_DIRS_DEFAULT`,
where both `None` and the empty list are falsy. -/
def effective_exclude_dirs : Option (List String) → List String
  | none => EXCLUDE_DIRS_DEFAULT
  | some l => if l.isEmpty then EXCLUDE_DIRS_DEFAULT else l

/-- Concrete environment exercising a decode failure inside a batch:
`/r/bad.jpg` has undecodable content (0) and metadata (5, 5);
`/r/good.jpg` decodes and has metadata (7, 7). -/
def testEnv : Env where
  fs := fun p =>
    if p == "/r/bad.jpg" then some (⟨5, 5⟩, 0)
    else if p == "/r/good.jpg" then some (⟨7, 7⟩, 3)
    else none
  decode := fun c => if c == 0 then none else some c
  hashFn := fun c => c + 1000
  extractFn := fun imgs => some (imgs.map (fun i => i + 500))
  underRoot := fun _ => true
  batchSize := 2

/-- Concrete environment for the rename scenario: the only file on
disk is `/r/b.jpg`, whose content (3) hashes to 1003 — the hash of
the stored record for `/r/a.jpg`. -/
def renameEnv : Env where
  fs := fun p => if p == "/r/b.jpg" then some (⟨5, 5⟩, 3) else none
  decode := fun c => if c == 0 then none else some c
  hashFn := fun c => c + 1000
  extractFn := fun imgs => some (imgs.map (fun i => i + 500))
  underRoot := fun _ => true
  batchSize := 2

/-- Concrete environment whose extraction collaborator fails on every
batch. -/
def failEnv : Env where
  fs := fun p => if p == "/r/b.jpg" then some (⟨5, 5⟩, 3) else none
  decode := fun c => if c == 0 then none else some c
  hashFn := fun c => c + 1000
  extractFn := fun _ => none
  underRoot := fun _ => true
  batchSize := 1

/-- Concrete query-side environment: a fixed ranking over two stored
vectors, every string except "cat" counting as a file path, and
`abspath` the identity. -/
def searchTestEnv : SearchEnv where
  rankFn := fun _ _ _ => [(9, 0), (8, 1)]
  is_file_path := fun q => q != "cat"
  abspath := fun q => q
  excludeDirMatch := fun _ => false
  underDir := fun _ => true

/-- Invariant used for the deletion property: every record whose path
is `c` still carries the indexing flag. -/
def FlaggedAt (c : String) (st : Store) : Prop :=
  ∀ x ∈ st, x.filepath = c → x.indexing = true

/-- Normal form of steps 1-2 of the sweep protocol applied to one
record: the flag becomes exactly "the path is under root". -/
def reflag (u : String → Bool) (x : DBImage) : DBImage :=
  ⟨x.filepath, x.modified_at, x.size, x.hash, x.vector, u x.filepath⟩

/-- C1: the claim states that every successfully extracted file's
record pairs that file's path with that same file's metadata, even
when an earlier file of the batch fails to decode.  The code removes
a decode-failing file from `filtered_paths` and `hashes` but not from
`metas`, so the `zip` of main.py line 91 shifts the metadata: here
`/r/bad.jpg` (meta (5, 5)) fails to decode and the record written for
`/r/good.jpg` (meta (7, 7) in the call) carries `modified_at = 5`,
`size = 5` — bad.jpg's metadata — refuting the claim at this input. -/
theorem index_files_pairs_wrong_meta_after_decode_failure :
    (index_files testEnv ["/r/bad.jpg", "/r/good.jpg"]
        [⟨5, 5⟩, ⟨7, 7⟩] [] []).1
      = [⟨"/r/good.jpg", 5, 5, 1003, 503, false⟩] := by
  decide

/-- C3: the claim states that after a completed `ensure_index` run no
record under root is flagged and every record under root carries the
current on-disk metadata of its own path.  In this run the sole
surviving record, for `/r/good.jpg`, stores metadata (5, 5) — copied
from the decode-failing `/r/bad.jpg` by the unfiltered-`metas` zip —
while the on-disk metadata of `/r/good.jpg` is (7, 7), refuting the
metadata half of the invariant. -/
theorem ensure_index_meta_invariant_fails :
    ensure_index testEnv ["/r/bad.jpg", "/r/good.jpg"] []
        = ([⟨"/r/good.jpg", 5, 5, 1003, 503, false⟩], [["/r/good.jpg"]])
      ∧ testEnv.fs "/r/good.jpg" = some (⟨7, 7⟩, 3) := by
  constructor
  · rfl
  · rfl

/-- C5: the claim states that a second `ensure_index` run over an
unchanged filesystem triggers zero extraction-collaborator calls.
Here the second run returns the same record set but its
extraction-invocation log is `[[/r/good.jpg]]` — one call, because
the record written by the first run carries `/r/bad.jpg`'s metadata
and so fails the unchanged check against `/r/good.jpg`'s on-disk
metadata — refuting the zero-calls conjunct. -/
theorem second_run_invokes_extraction :
    ensure_index testEnv ["/r/bad.jpg", "/r/good.jpg"]
        (ensure_index testEnv ["/r/bad.jpg", "/r/good.jpg"] []).1
      = ((ensure_index testEnv ["/r/bad.jpg", "/r/good.jpg"] []).1,
          [["/r/good.jpg"]]) := by
  decide

/-- C2 counterexample: the claim asserts that for a renamed file the
extraction collaborator is not invoked.  In this run the store holds
the record for `/r/a.jpg` (hash 1003, vector 77) and the disk holds
only the renamed `/r/b.jpg` with the same content; the run ends with
the single expected record at `/r/b.jpg` with hash 1003 and vector
77, but the extraction log is `[[/r/b.jpg]]`: the batched
`compute_image_features` call of main.py line 87 receives the renamed
file's image (its vector is then discarded by the rename branch),
refuting the no-extraction conjunct of the claim. -/
theorem rename_run_invokes_extraction :
    ensure_index renameEnv ["/r/b.jpg"] [⟨"/r/a.jpg", 5, 5, 1003, 77, false⟩]
      = ([⟨"/r/b.jpg", 5, 5, 1003, 77, false⟩], [["/r/b.jpg"]]) := by
  decide

/-- C9: constructing `RClip` with an empty `exclude_dirs` list applies
the default exclusions exactly as passing `None` does — Python's
`exclude_dirs or EXCLUDE_DIRS_DEFAULT` treats the empty list as
falsy, so an empty exclusion set cannot be expressed through this
parameter. -/
theorem empty_exclude_dirs_uses_default :
    effective_exclude_dirs (some []) = EXCLUDE_DIRS_DEFAULT
      ∧ effective_exclude_dirs none = EXCLUDE_DIRS_DEFAULT
      ∧ EXCLUDE_DIRS_DEFAULT = ["@eaDir", "node_modules", ".git"] :=
  ⟨rfl, rfl, rfl⟩

/-- C10: `search` performs only read operations on the Index Store —
the single store operation it issues is the listing by directory
prefix, a query, so the store it returns is the store it was given,
every record unchanged. -/
theorem search_preserves_store (senv : SearchEnv) (st : Store) (query : String)
    (top_k : Nat) (positive_queries negative_queries : List String) :
    (search senv st query top_k positive_queries negative_queries).1 = st :=
  rfl

/-- Clearing all flags after a directory-wide flagging is the same as
clearing all flags directly: the flag set/clear operations commute
into a single store-wide clear. -/
theorem remove_all_flag_under (st : Store) (u : String → Bool) :
    remove_indexing_flag_from_all_images (flag_images_in_a_dir_as_indexing st u)
      = remove_indexing_flag_from_all_images st := by
  unfold remove_indexing_flag_from_all_images flag_images_in_a_dir_as_indexing
  rw [List.map_map]
  apply List.map_congr_left
  intro r _
  by_cases h : u r.filepath = true <;> simp [h]

/-- The store-wide flag clear is idempotent. -/
theorem remove_all_idem (st : Store) :
    remove_indexing_flag_from_all_images (remove_indexing_flag_from_all_images st)
      = remove_indexing_flag_from_all_images st := by
  unfold remove_indexing_flag_from_all_images
  rw [List.map_map]
  apply List.map_congr_left
  intro r _
  rfl

/-- C4: a run that stops right after step 2 (global unflag then local
flag under root, committed) leaves a store whose only difference from
the original is its flags; a fresh complete `ensure_index` over the
same snapshot starts with its own global unflag, which erases that
difference, so it produces exactly the final state (store and
extraction log) of a single uninterrupted run. -/
theorem resumed_run_equals_uninterrupted (env : Env) (walked : List String) (st : Store) :
    ensure_index env walked
        (flag_images_in_a_dir_as_indexing
          (remove_indexing_flag_from_all_images st) env.underRoot)
      = ensure_index env walked st := by
  have h : remove_indexing_flag_from_all_images
      (flag_images_in_a_dir_as_indexing
        (remove_indexing_flag_from_all_images st) env.underRoot)
      = remove_indexing_flag_from_all_images st := by
    rw [remove_all_flag_under, remove_all_idem]
  simp only [ensure_index, h]

/-- A flush whose extraction call fails mutates nothing: main.py
lines 86-90 return from `_index_files` before any store write. -/
theorem index_files_st_of_extract_none (env : Env) (batch : List String)
    (metas : List ImageMeta) (st : Store) (log : List (List String))
    (h : env.extractFn (decodeBatch env batch).images = none) :
    (index_files env batch metas st log).1 = st := by
  simp only [index_files, h]

/-- With an always-failing extractor, a conditional flush leaves the
store component untouched. -/
theorem flushIfFull_st_of_fail (env : Env) (s : RunState)
    (h : ∀ imgs, env.extractFn imgs = none) :
    (flushIfFull env s).st = s.st := by
  unfold flushIfFull
  split
  · exact index_files_st_of_extract_none env s.batch s.metas s.st s.log (h _)
  · rfl

/-- With an always-failing extractor, one loop iteration affects the
store exactly as the confirm-unchanged-only step does. -/
theorem processEntry_st_of_fail (env : Env) (s : RunState) (p : String)
    (h : ∀ imgs, env.extractFn imgs = none) :
    (processEntry env s p).st = confirmOnlyStep env s.st p := by
  unfold processEntry confirmOnlyStep
  cases env.fs p with
  | none => rfl
  | some mc =>
    cases hg : get_image s.st p with
    | some image =>
      by_cases hm : is_image_meta_equal image mc.1 = true
      · simp [hm]
      · simp [hm, flushIfFull_st_of_fail env _ h]
    | none => simp [flushIfFull_st_of_fail env _ h]

/-- With an always-failing extractor, the whole reconciliation fold
affects the store exactly as folding the confirm-only step does. -/
theorem foldl_processEntry_st_of_fail (env : Env) (walked : List String)
    (h : ∀ imgs, env.extractFn imgs = none) :
    ∀ s : RunState, (walked.foldl (processEntry env) s).st
      = walked.foldl (confirmOnlyStep env) s.st := by
  induction walked with
  | nil => intro s; rfl
  | cons p ps ih =>
    intro s
    simp only [List.foldl_cons]
    rw [ih (processEntry env s p), processEntry_st_of_fail env s p h]

/-- C7: when the single batched extraction call for a batch fails, the
flush performs no store mutation for any file of the batch (first
conjunct), and the traversal continues instead of aborting: a run
whose extractor always fails still processes every walked entry — the
store evolving only by the confirm-unchanged unflagging — and still
reaches the end-of-run sweep (second conjunct). -/
theorem failed_extraction_leaves_store_unchanged (env : Env) :
    (∀ (batch : List String) (metas : List ImageMeta) (st : Store)
        (log : List (List String)),
      env.extractFn (decodeBatch env batch).images = none →
        (index_files env batch metas st log).1 = st)
    ∧ ((∀ imgs, env.extractFn imgs = none) → ∀ (walked : List String) (st : Store),
        (ensure_index env walked st).1
          = flag_indexing_images_in_a_dir_as_deleted
              (walked.foldl (confirmOnlyStep env)
                (flag_images_in_a_dir_as_indexing
                  (remove_indexing_flag_from_all_images st) env.underRoot))
              env.underRoot) := by
  refine ⟨fun batch metas st log h =>
    index_files_st_of_extract_none env batch metas st log h, ?_⟩
  intro h walked st
  simp only [ensure_index]
  have hst := foldl_processEntry_st_of_fail env walked h
    ⟨flag_images_in_a_dir_as_indexing (remove_indexing_flag_from_all_images st)
      env.underRoot, [], [], []⟩
  set s := walked.foldl (processEntry env)
    ⟨flag_images_in_a_dir_as_indexing (remove_indexing_flag_from_all_images st)
      env.underRoot, [], [], []⟩ with hs
  by_cases hb : (s.batch.length != 0) = true
  · rw [if_pos hb, index_files_st_of_extract_none env s.batch s.metas s.st s.log (h _), hst]
  · rw [if_neg hb, hst]

/-- Witness for C7 at a concrete input: one stored record, one walked
file, an extractor that fails on every batch. -/
theorem failed_extraction_leaves_store_unchanged_witness :
    (index_files failEnv ["/r/b.jpg"] [⟨5, 5⟩]
        [⟨"/r/a.jpg", 5, 5, 1003, 77, false⟩] []).1
      = [⟨"/r/a.jpg", 5, 5, 1003, 77, false⟩]
    ∧ (ensure_index failEnv ["/r/b.jpg"] [⟨"/r/a.jpg", 5, 5, 1003, 77, false⟩]).1
        = flag_indexing_images_in_a_dir_as_deleted
            (["/r/b.jpg"].foldl (confirmOnlyStep failEnv)
              (flag_images_in_a_dir_as_indexing
                (remove_indexing_flag_from_all_images
                  [⟨"/r/a.jpg", 5, 5, 1003, 77, false⟩])
                failEnv.underRoot))
            failEnv.underRoot :=
  ⟨(failed_extraction_leaves_store_unchanged failEnv).1 _ _ _ _ (by decide),
   (failed_extraction_leaves_store_unchanged failEnv).2 (fun _ => rfl) _ _⟩

/-- C8: if any positive or negative query (the primary query
included) is a file path, `search` never returns that file's absolute
path, regardless of similarity scores: every returned candidate
survives the filter of main.py lines 182-188, which drops any
candidate whose path lies in `exclude_files`, and the absolute path
of a file-reference query always lies in `exclude_files`. -/
theorem search_excludes_query_file (senv : SearchEnv) (st : Store) (query : String)
    (top_k : Nat) (positive_queries negative_queries : List String) (x : String)
    (hmem : x ∈ query :: positive_queries ++ negative_queries)
    (hfile : senv.is_file_path x = true) :
    ∀ r ∈ (search senv st query top_k positive_queries negative_queries).2,
      r.1 ≠ senv.abspath x := by
  intro r hr
  simp only [search] at hr
  obtain ⟨t, ht, hrt⟩ := List.mem_map.1 hr
  have ht2 := List.take_subset _ _ ht
  have hpred := (List.mem_filter.1 ht2).2
  rw [Bool.and_eq_true] at hpred
  have hnc := hpred.2
  rw [Bool.not_eq_true'] at hnc
  simp only [List.contains] at hnc
  simp at hnc
  intro hcontra
  rw [← hrt] at hcontra
  simp at hcontra
  rcases List.mem_cons.1 hmem with hq | hpn
  · subst hq
    exact hnc.1 hfile hcontra.symm
  · rcases List.mem_append.1 hpn with hp | hn
    · exact hnc.2 x (Or.inl hp) hfile hcontra.symm
    · exact hnc.2 x (Or.inr hn) hfile hcontra.symm

/-- Witness for C8 at a concrete input: the primary query is the
indexed file `/r/q.jpg`, whose candidate outranks the other record,
yet the returned top hit differs from the query's absolute path. -/
theorem search_excludes_query_file_witness :
    ("/r/o.jpg", (8 : Int)).1 ≠ searchTestEnv.abspath "/r/q.jpg" :=
  search_excludes_query_file searchTestEnv
    [⟨"/r/q.jpg", 1, 1, 11, 21, false⟩, ⟨"/r/o.jpg", 2, 2, 12, 22, false⟩]
    "/r/q.jpg" 10 [] [] "/r/q.jpg" (by decide) (by decide)
    ("/r/o.jpg", 8) (by decide)

/-- An upsert cannot produce an unflagged record at path `c` when the
written record's path differs from `c`. -/
theorem upsert_flaggedAt (st : Store) (n : DBImage) (c : String)
    (h : FlaggedAt c st) (hn : n.filepath ≠ c) :
    FlaggedAt c (upsert_image st n) := by
  intro x hx hxc
  unfold upsert_image at hx
  split at hx
  · obtain ⟨y, hy, hyx⟩ := List.mem_map.1 hx
    by_cases hcase : (y.filepath == n.filepath) = true
    · rw [if_pos hcase] at hyx
      subst hyx
      exact absurd hxc hn
    · rw [if_neg hcase] at hyx
      subst hyx
      exact h y hy hxc
  · rcases List.mem_append.1 hx with hx1 | hx1
    · exact h x hx1 hxc
    · rw [List.mem_singleton.1 hx1] at hxc
      exact absurd hxc hn

/-- A rename targeting a path other than `c` cannot produce an
unflagged record at path `c` (a record renamed away from `c` simply
no longer sits at `c`). -/
theorem update_filepath_flaggedAt (st : Store) (old new c : String)
    (h : FlaggedAt c st) (hnew : new ≠ c) :
    FlaggedAt c (update_image_filepath st old new) := by
  intro x hx hxc
  unfold update_image_filepath at hx
  obtain ⟨y, hy, hyx⟩ := List.mem_map.1 hx
  by_cases hcase : (y.filepath == old) = true
  · rw [if_pos hcase] at hyx
    subst hyx
    exact absurd hxc hnew
  · rw [if_neg hcase] at hyx
    subst hyx
    exact h y hy hxc

/-- The reconciliation loop of a flush preserves the flagged-at-`c`
invariant when no quad targets path `c`. -/
theorem applyIndex_flaggedAt (quads : List (String × ImageMeta × Nat × Nat))
    (c : String) (hq : ∀ q ∈ quads, q.1 ≠ c) :
    ∀ st : Store, FlaggedAt c st → FlaggedAt c (applyIndex st quads) := by
  induction quads with
  | nil => intro st h; exact h
  | cons q qs ih =>
    intro st h
    have hq1 : q.1 ≠ c := hq q (List.mem_cons_self q qs)
    have hqs : ∀ q' ∈ qs, q'.1 ≠ c := fun q' hq' => hq q' (List.mem_cons_of_mem q hq')
    simp only [applyIndex, List.foldl_cons]
    apply ih hqs
    cases hg : get_image_by_hash st q.2.2.2 with
    | some existing_image =>
      by_cases hne : (existing_image.filepath != q.1) = true
      · simp only [hg, hne, if_pos]
        exact update_filepath_flaggedAt st existing_image.filepath q.1 c h hq1
      · simp only [hg, hne]
        exact upsert_flaggedAt st _ c h hq1
    | none =>
      simp only [hg]
      exact upsert_flaggedAt st _ c h hq1


theorem foldl_decodeStep_filtered (env : Env) (batch : List String) :
    ∀ acc : DecAcc, ∀ p ∈ (batch.foldl (decodeStep env) acc).filteredPaths,
      p ∈ acc.filteredPaths ∨ p ∈ batch := by
  induction batch with
  | nil => intro acc p hp; exact Or.inl hp
  | cons b bs ih =>
    intro acc p hp
    rw [List.foldl_cons] at hp
    rcases ih (decodeStep env acc b) p hp with h | h
    · unfold decodeStep at h
      cases hfs : env.fs b with
      | none => rw [hfs] at h; exact Or.inl h
      | some mc =>
        obtain ⟨m0, c0⟩ := mc
        rw [hfs] at h
        simp only at h
        cases hdec : env.decode c0 with
        | none => rw [hdec] at h; exact Or.inl h
        | some img =>
          rw [hdec] at h
          simp only at h
          rcases List.mem_append.1 h with h1 | h1
          · exact Or.inl h1
          · exact Or.inr (List.mem_cons.2 (Or.inl (List.mem_singleton.1 h1)))
    · exact Or.inr (List.mem_cons.2 (Or.inr h))

theorem decodeBatch_filtered_subset (env : Env) (batch : List String) :
    ∀ p ∈ (decodeBatch env batch).filteredPaths, p ∈ batch := by
  intro p hp
  rcases foldl_decodeStep_filtered env batch ⟨[], [], []⟩ p hp with h | h
  · exact absurd h (List.not_mem_nil p)
  · exact h

theorem index_files_flaggedAt (env : Env) (batch : List String)
    (metas : List ImageMeta) (st : Store) (log : List (List String)) (c : String)
    (h : FlaggedAt c st) (hb : ∀ p ∈ batch, p ≠ c) :
    FlaggedAt c (index_files env batch metas st log).1 := by
  cases hext : env.extractFn (decodeBatch env batch).images with
  | none =>
    simp only [index_files, hext]
    exact h
  | some features =>
    simp only [index_files, hext]
    apply applyIndex_flaggedAt _ c _ st h
    intro q hq
    obtain ⟨q0, hq0, hq0q⟩ := List.mem_map.1 hq
    have h1 : q0.1 ∈ (decodeBatch env batch).filteredPaths :=
      (List.of_mem_zip hq0).1
    rw [← hq0q]
    exact hb q0.1 (decodeBatch_filtered_subset env batch q0.1 h1)

theorem remove_indexing_flag_flaggedAt (st : Store) (p c : String)
    (hp : p ≠ c) (h : FlaggedAt c st) :
    FlaggedAt c (remove_indexing_flag st p) := by
  intro x hx hxc
  unfold remove_indexing_flag at hx
  obtain ⟨y, hy, hyx⟩ := List.mem_map.1 hx
  by_cases hcase : (y.filepath == p) = true
  · rw [if_pos hcase] at hyx
    subst hyx
    simp only at hxc
    rw [eq_of_beq hcase] at hxc
    exact absurd hxc hp
  · rw [if_neg hcase] at hyx
    subst hyx
    exact h y hy hxc

theorem flushIfFull_flaggedAt (env : Env) (s : RunState) (c : String)
    (h : FlaggedAt c s.st) (hb : ∀ p ∈ s.batch, p ≠ c) :
    FlaggedAt c (flushIfFull env s).st
      ∧ ∀ p ∈ (flushIfFull env s).batch, p ≠ c := by
  unfold flushIfFull
  split
  · exact ⟨index_files_flaggedAt env s.batch s.metas s.st s.log c h hb,
      fun p hp => absurd hp (List.not_mem_nil p)⟩
  · exact ⟨h, hb⟩

theorem processEntry_flaggedAt (env : Env) (s : RunState) (p c : String)
    (hp : p ≠ c) (h : FlaggedAt c s.st) (hb : ∀ p ∈ s.batch, p ≠ c) :
    FlaggedAt c (processEntry env s p).st
      ∧ ∀ q ∈ (processEntry env s p).batch, q ≠ c := by
  unfold processEntry
  cases env.fs p with
  | none => exact ⟨h, hb⟩
  | some mc =>
    have hb2 : ∀ q ∈ s.batch ++ [p], q ≠ c := by
      intro q hq
      rcases List.mem_append.1 hq with h1 | h1
      · exact hb q h1
      · rw [List.mem_singleton.1 h1]; exact hp
    cases get_image s.st p with
    | some image =>
      by_cases hm : is_image_meta_equal image mc.1 = true
      · simp only [hm, if_pos]
        exact ⟨remove_indexing_flag_flaggedAt s.st p c hp h, hb⟩
      · simp only [hm]
        exact flushIfFull_flaggedAt env _ c h hb2
    | none =>
      exact flushIfFull_flaggedAt env _ c h hb2

theorem foldl_processEntry_flaggedAt (env : Env) (c : String) (walked : List String)
    (hnc : ∀ p ∈ walked, p ≠ c) :
    ∀ s : RunState, FlaggedAt c s.st → (∀ p ∈ s.batch, p ≠ c) →
      FlaggedAt c ((walked.foldl (processEntry env) s).st)
        ∧ ∀ p ∈ (walked.foldl (processEntry env) s).batch, p ≠ c := by
  induction walked with
  | nil => intro s h hb; exact ⟨h, hb⟩
  | cons p ps ih =>
    intro s h hb
    have hp : p ≠ c := hnc p (List.mem_cons_self p ps)
    have hps : ∀ q ∈ ps, q ≠ c := fun q hq => hnc q (List.mem_cons_of_mem p hq)
    rw [List.foldl_cons]
    obtain ⟨h1, h2⟩ := processEntry_flaggedAt env s p c hp h hb
    exact ih hps _ h1 h2

/-- C6: if `c` lies under root and the traversal never observes `c`
(the file was deleted from disk), then after a completed
`ensure_index` run the store holds no record with path `c`: any such
record keeps its indexing flag through the whole run — upserts and
renames only ever target walked paths — and the end-of-run sweep
deletes it.  This holds for every initial store, in particular any
store holding a record for `c`. -/
theorem deleted_file_has_no_record (env : Env) (walked : List String) (st : Store)
    (c : String) (hroot : env.underRoot c = true)
    (hnc : ∀ p ∈ walked, p ≠ c) :
    (ensure_index env walked st).1.filter (fun x => x.filepath == c) = [] := by
  have hinit : FlaggedAt c
      (flag_images_in_a_dir_as_indexing
        (remove_indexing_flag_from_all_images st) env.underRoot) := by
    intro x hx hxc
    unfold flag_images_in_a_dir_as_indexing remove_indexing_flag_from_all_images at hx
    rw [List.map_map] at hx
    obtain ⟨y, hy, hyx⟩ := List.mem_map.1 hx
    simp only [Function.comp] at hyx
    by_cases hcase : env.underRoot y.filepath = true
    · rw [if_pos hcase] at hyx
      subst hyx
      rfl
    · rw [if_neg hcase] at hyx
      subst hyx
      exact absurd (hxc ▸ hroot) hcase
  obtain ⟨hfold, hbatch⟩ := foldl_processEntry_flaggedAt env c walked hnc
    ⟨flag_images_in_a_dir_as_indexing
      (remove_indexing_flag_from_all_images st) env.underRoot, [], [], []⟩
    hinit (fun p hp => absurd hp (List.not_mem_nil p))
  simp only [ensure_index]
  set s := walked.foldl (processEntry env)
    ⟨flag_images_in_a_dir_as_indexing
      (remove_indexing_flag_from_all_images st) env.underRoot, [], [], []⟩ with hs
  have hfinal : FlaggedAt c
      (if (s.batch.length != 0) = true
        then index_files env s.batch s.metas s.st s.log
        else (s.st, s.log)).1 := by
    split
    · exact index_files_flaggedAt env s.batch s.metas s.st s.log c hfold hbatch
    · exact hfold
  rw [List.filter_eq_nil_iff]
  intro x hx
  have hx1 := List.mem_of_mem_filter hx
  have hx2 := List.of_mem_filter hx
  intro hxc
  have hflag := hfinal x hx1 (by exact eq_of_beq hxc)
  rw [eq_of_beq hxc, hroot, hflag] at hx2
  simp at hx2


/-- Witness for C6 at a concrete input: a store holding a record for
the deleted `/r/gone.jpg` and a traversal observing two other files. -/
theorem deleted_file_has_no_record_witness :
    (ensure_index testEnv ["/r/bad.jpg", "/r/good.jpg"]
        [⟨"/r/gone.jpg", 1, 1, 9, 9, false⟩]).1.filter
      (fun x => x.filepath == "/r/gone.jpg") = [] :=
  deleted_file_has_no_record testEnv ["/r/bad.jpg", "/r/good.jpg"]
    [⟨"/r/gone.jpg", 1, 1, 9, 9, false⟩] "/r/gone.jpg" (by decide) (by decide)


theorem update_filepath_append (l1 l2 : Store) (old new : String) :
    update_image_filepath (l1 ++ l2) old new
      = update_image_filepath l1 old new ++ update_image_filepath l2 old new := by
  unfold update_image_filepath
  exact List.map_append _ _ _

theorem update_filepath_cons (x : DBImage) (l : Store) (old new : String) :
    update_image_filepath (x :: l) old new
      = (if x.filepath == old
          then { x with filepath := new, indexing := false } else x)
        :: update_image_filepath l old new := rfl

theorem update_filepath_path_mem (st : Store) (old new : String) (x : DBImage)
    (hx : x ∈ update_image_filepath st old new) :
    ∃ y ∈ st, (x = y ∧ (y.filepath == old) = false)
      ∨ (x = { y with filepath := new, indexing := false }
          ∧ (y.filepath == old) = true) := by
  unfold update_image_filepath at hx
  obtain ⟨y, hy, hyx⟩ := List.mem_map.1 hx
  refine ⟨y, hy, ?_⟩
  by_cases hcase : (y.filepath == old) = true
  · rw [if_pos hcase] at hyx
    exact Or.inr ⟨hyx.symm, hcase⟩
  · rw [if_neg hcase] at hyx
    exact Or.inl ⟨hyx.symm, Bool.not_eq_true _ ▸ hcase⟩

theorem deleted_append (l1 l2 : Store) (u : String → Bool) :
    flag_indexing_images_in_a_dir_as_deleted (l1 ++ l2) u
      = flag_indexing_images_in_a_dir_as_deleted l1 u
        ++ flag_indexing_images_in_a_dir_as_deleted l2 u := by
  unfold flag_indexing_images_in_a_dir_as_deleted
  exact List.filter_append _ _

theorem deleted_cons (x : DBImage) (l : Store) (u : String → Bool) :
    flag_indexing_images_in_a_dir_as_deleted (x :: l) u
      = if !(u x.filepath && x.indexing)
          then x :: flag_indexing_images_in_a_dir_as_deleted l u
          else flag_indexing_images_in_a_dir_as_deleted l u := by
  unfold flag_indexing_images_in_a_dir_as_deleted
  exact List.filter_cons

theorem flag_after_remove_eq_reflag (s : Store) (u : String → Bool) :
    flag_images_in_a_dir_as_indexing (remove_indexing_flag_from_all_images s) u
      = s.map (reflag u) := by
  unfold flag_images_in_a_dir_as_indexing remove_indexing_flag_from_all_images
  rw [List.map_map]
  apply List.map_congr_left
  intro x _
  simp only [Function.comp, reflag]
  by_cases h : u x.filepath <;> simp [h]

/-- C2 (amended): for a store whose unique record bearing hash H is
the one at `a` (vector V) — the spec's own standing assumption — with
no path collisions at `a` or `b`, renaming the file on disk to `b`
(same content, hence same hash H) and re-running `ensure_index` over
`[b]` yields exactly one record at path `b`, with hash H and vector V
and the flag clear, no record at `a`, and exactly one extraction
invocation, whose batch contains the renamed file (the claim's
"extraction collaborator is not invoked" conjunct is what the
counterexample refutes; its computed vector is discarded). -/
theorem rename_preserves_record (env : Env) (s1 s2 : Store) (r : DBImage)
    (a b : String) (m : ImageMeta) (c img v : Nat) (vs : List Nat)
    (hra : r.filepath = a)
    (hab : a ≠ b)
    (hother : ∀ x ∈ s1 ++ s2, x.hash ≠ r.hash ∧ x.filepath ≠ a ∧ x.filepath ≠ b)
    (hfs : env.fs b = some (m, c))
    (hdec : env.decode c = some img)
    (hhash : env.hashFn c = r.hash)
    (hext : env.extractFn [img] = some (v :: vs)) :
    ((ensure_index env [b] (s1 ++ r :: s2)).1.filter (fun x => x.filepath == b)
        = [⟨b, r.modified_at, r.size, r.hash, r.vector, false⟩])
    ∧ ((ensure_index env [b] (s1 ++ r :: s2)).1.filter (fun x => x.filepath == a)
        = [])
    ∧ (ensure_index env [b] (s1 ++ r :: s2)).2 = [[b]] := by
  have hst2 : flag_images_in_a_dir_as_indexing
      (remove_indexing_flag_from_all_images (s1 ++ r :: s2)) env.underRoot
      = s1.map (reflag env.underRoot)
        ++ reflag env.underRoot r :: s2.map (reflag env.underRoot) := by
    rw [flag_after_remove_eq_reflag]
    simp
  set u := env.underRoot with hu
  set st2v := s1.map (reflag u) ++ reflag u r :: s2.map (reflag u) with hst2v
  have hgi : get_image st2v b = none := by
    unfold get_image
    rw [List.find?_eq_none]
    intro x hx
    rcases List.mem_append.1 hx with h1 | h1
    · obtain ⟨y, hy, hyx⟩ := List.mem_map.1 h1
      subst hyx
      simp only [reflag]
      exact fun hc => (hother y (List.mem_append.2 (Or.inl hy))).2.2 (eq_of_beq hc)
    · rcases List.mem_cons.1 h1 with h2 | h2
      · subst h2
        simp only [reflag]
        exact fun hc => hab (hra ▸ eq_of_beq hc)
      · obtain ⟨y, hy, hyx⟩ := List.mem_map.1 h2
        subst hyx
        simp only [reflag]
        exact fun hc => (hother y (List.mem_append.2 (Or.inr hy))).2.2 (eq_of_beq hc)
  have hgh : get_image_by_hash st2v r.hash = some (reflag u r) := by
    unfold get_image_by_hash
    rw [hst2v, List.find?_append]
    have h1 : (s1.map (reflag u)).find? (fun x => x.hash == r.hash) = none := by
      rw [List.find?_eq_none]
      intro x hx
      obtain ⟨y, hy, hyx⟩ := List.mem_map.1 hx
      subst hyx
      simp only [reflag]
      exact fun hc => (hother y (List.mem_append.2 (Or.inl hy))).1 (eq_of_beq hc)
    rw [h1]
    rw [Option.none_or]
    exact List.find?_cons_of_pos _ (by simp [reflag])
  have hdb : decodeBatch env [b] = ⟨[img], [b], [r.hash]⟩ := by
    unfold decodeBatch decodeStep
    simp [hfs, hdec, hhash]
  have hif : index_files env [b] [m] st2v []
      = (update_image_filepath st2v a b, [[b]]) := by
    simp only [index_files, hdb, hext]
    simp only [List.zip_cons_cons, List.zip_nil_right, List.zip_nil_left,
      List.map_cons, List.map_nil, List.nil_append]
    simp only [applyIndex, List.foldl_cons, List.foldl_nil]
    rw [hgh]
    dsimp only
    have hne : ((reflag u r).filepath != b) = true := by
      simp [reflag, hra, bne_iff_ne]
      exact hab
    rw [if_pos hne]
    have hfp : (reflag u r).filepath = a := hra
    rw [hfp]
  have hrun : ensure_index env [b] (s1 ++ r :: s2)
      = (flag_indexing_images_in_a_dir_as_deleted
          (update_image_filepath st2v a b) u, [[b]]) := by
    simp only [ensure_index, List.foldl_cons, List.foldl_nil]
    rw [hst2]
    have hpe : processEntry env ⟨st2v, [], [], []⟩ b
        = flushIfFull env ⟨st2v, [b], [m], []⟩ := by
      unfold processEntry
      rw [hfs]
      dsimp only
      rw [hgi]
      dsimp only
      rw [List.nil_append, List.nil_append]
    rw [hpe]
    unfold flushIfFull
    by_cases hbs : (env.batchSize ≤ ([b] : List String).length)
    · rw [if_pos hbs]
      dsimp only
      rw [hif]
      dsimp only
      norm_num
    · rw [if_neg hbs]
      dsimp only
      norm_num
      rw [hif]
      exact ⟨rfl, rfl⟩
  have hupd : update_image_filepath st2v a b
      = update_image_filepath (s1.map (reflag u)) a b
        ++ (⟨b, r.modified_at, r.size, r.hash, r.vector, false⟩ : DBImage)
          :: update_image_filepath (s2.map (reflag u)) a b := by
    rw [hst2v, update_filepath_append, update_filepath_cons]
    rw [if_pos (show ((reflag u r).filepath == a) = true by simp [reflag, hra])]
    rfl
  have hside : ∀ (l : Store), (∀ z ∈ l, z.filepath ≠ a ∧ z.filepath ≠ b) →
      ∀ x ∈ update_image_filepath (l.map (reflag u)) a b,
        x.filepath ≠ a ∧ x.filepath ≠ b := by
    intro l hl x hx
    obtain ⟨y, hy, hcase⟩ := update_filepath_path_mem _ a b x hx
    obtain ⟨z, hz, hzy⟩ := List.mem_map.1 hy
    subst hzy
    rcases hcase with ⟨hxy, _⟩ | ⟨_, hbeq⟩
    · subst hxy
      exact hl z hz
    · exact absurd (eq_of_beq hbeq) (hl z hz).1
  have hs1 : ∀ z ∈ s1, z.filepath ≠ a ∧ z.filepath ≠ b :=
    fun z hz => ⟨(hother z (List.mem_append.2 (Or.inl hz))).2.1,
      (hother z (List.mem_append.2 (Or.inl hz))).2.2⟩
  have hs2 : ∀ z ∈ s2, z.filepath ≠ a ∧ z.filepath ≠ b :=
    fun z hz => ⟨(hother z (List.mem_append.2 (Or.inr hz))).2.1,
      (hother z (List.mem_append.2 (Or.inr hz))).2.2⟩
  have hdel : flag_indexing_images_in_a_dir_as_deleted
        (update_image_filepath st2v a b) u
      = flag_indexing_images_in_a_dir_as_deleted
          (update_image_filepath (s1.map (reflag u)) a b) u
        ++ (⟨b, r.modified_at, r.size, r.hash, r.vector, false⟩ : DBImage)
          :: flag_indexing_images_in_a_dir_as_deleted
              (update_image_filepath (s2.map (reflag u)) a b) u := by
    rw [hupd, deleted_append, deleted_cons]
    rw [if_pos (by simp)]
  have hnil : ∀ (l : Store) (q : String), (∀ x ∈ l, x.filepath ≠ q) →
      l.filter (fun x => x.filepath == q) = [] := by
    intro l q hl
    rw [List.filter_eq_nil_iff]
    intro x hx hc
    exact hl x hx (eq_of_beq hc)
  have hmemdel : ∀ (l : Store) (x : DBImage),
      x ∈ flag_indexing_images_in_a_dir_as_deleted l u → x ∈ l := by
    intro l x hx
    exact List.mem_of_mem_filter hx
  rw [hrun]
  refine ⟨?_, ?_, rfl⟩
  · show (flag_indexing_images_in_a_dir_as_deleted
        (update_image_filepath st2v a b) u).filter (fun x => x.filepath == b)
      = [⟨b, r.modified_at, r.size, r.hash, r.vector, false⟩]
    rw [hdel, List.filter_append]
    rw [hnil _ b (fun x hx => (hside s1 hs1 x (hmemdel _ x hx)).2)]
    rw [List.filter_cons_of_pos (by simp)]
    rw [hnil _ b (fun x hx => (hside s2 hs2 x (hmemdel _ x hx)).2)]
    rfl
  · show (flag_indexing_images_in_a_dir_as_deleted
        (update_image_filepath st2v a b) u).filter (fun x => x.filepath == a)
      = []
    rw [hdel, List.filter_append]
    rw [hnil _ a (fun x hx => (hside s1 hs1 x (hmemdel _ x hx)).1)]
    rw [List.filter_cons_of_neg (by simp [beq_eq_false_iff_ne]; exact fun h => hab h.symm)]
    rw [hnil _ a (fun x hx => (hside s2 hs2 x (hmemdel _ x hx)).1)]
    rfl

/-- Witness for C2's amended theorem at a concrete input: the
one-record store of the counterexample run. -/
theorem rename_preserves_record_witness :
    ((ensure_index renameEnv ["/r/b.jpg"]
        [⟨"/r/a.jpg", 5, 5, 1003, 77, false⟩]).1.filter
        (fun x => x.filepath == "/r/b.jpg")
      = [⟨"/r/b.jpg", 5, 5, 1003, 77, false⟩])
    ∧ ((ensure_index renameEnv ["/r/b.jpg"]
        [⟨"/r/a.jpg", 5, 5, 1003, 77, false⟩]).1.filter
        (fun x => x.filepath == "/r/a.jpg") = [])
    ∧ (ensure_index renameEnv ["/r/b.jpg"]
        [⟨"/r/a.jpg", 5, 5, 1003, 77, false⟩]).2 = [["/r/b.jpg"]] :=
  rename_preserves_record renameEnv [] [] ⟨"/r/a.jpg", 5, 5, 1003, 77, false⟩
    "/r/a.jpg" "/r/b.jpg" ⟨5, 5⟩ 3 3 503 [] rfl (by decide) (by simp)
    rfl rfl rfl rfl


end Rclip
